import Mathlib

/-
  Verification development for the airshipctl out-of-band host lifecycle
  manager (package `remote`): the Manager / HostSelector / reconcileHosts
  orchestration layer.  The `remote` package itself is embedded faithfully;
  external collaborators that the package consumes (the document layer, the
  management-configuration validation and the vendor client constructors)
  are modelled from the specification of their contracts.  Stateful Go code
  is embedded by explicit passing of an event trace recording the externally
  visible calls, and fallible code returns `Except`.
-/

namespace Airship

/-- Modelled from the spec: a document selector, composing `ByKind` with an
optional `ByName` and an optional `ByLabel` constraint (the document layer
itself is an external collaborator). -/
structure Selector where
  kind : String
  name : Option String
  label : Option String
deriving DecidableEq, Repr

/-- Kind tag for baremetal host documents (`document.BareMetalHostKind`). -/
def BareMetalHostKind : String := "BareMetalHost"

/-- Externally visible calls made during Manager construction, recorded in
order of occurrence. -/
inductive Event where
  | validateCall : Event
  | bundleLoadCall : Event
  | docSelectCall (s : Selector) : Event
  | bmcAddressCall (docName : String) : Event
  | credentialsCall (docName : String) : Event
  | clientConstructCall (address : String) : Event
deriving DecidableEq, Repr

/-- Trace of events, in the order they occurred. -/
abbrev Trace := List Event

/-- Selection side effects in the sense of the specification: document
selection, BMC-address resolution, credential resolution and vendor client
construction. -/
def Event.isSelectionEffect : Event → Bool
  | .docSelectCall _ => true
  | .bmcAddressCall _ => true
  | .credentialsCall _ => true
  | .clientConstructCall _ => true
  | _ => false

/-- The error taxonomy of the `remote` package: `ErrUnknownManagementType`,
`ErrNoHostsFound`, `document.ErrDocNotFound`, plus wrapped failures of the
external collaborators (address / credential resolution, configuration
resolution, bundle loading). -/
inductive RemoteError where
  | unknownManagementType (typeName : String) : RemoteError
  | noHostsFound : RemoteError
  | docNotFound (s : Selector) : RemoteError
  | addressError (msg : String) : RemoteError
  | credentialsError (msg : String) : RemoteError
  | configError (msg : String) : RemoteError
  | bundleLoadError (msg : String) : RemoteError
deriving DecidableEq, Repr

/-- The management configuration consumed by the `remote` package.  The Go
field `Type` is written `type` here. -/
structure ManagementConfiguration where
  type : String
  insecure : Bool
  useProxy : Bool
  systemActionRetries : Nat
  systemRebootDelay : Nat
deriving DecidableEq, Repr

/-- Client type tag of the generic Redfish vendor package. -/
def redfish.ClientType : String := "redfish"

/-- Client type tag of the Dell (iDRAC) Redfish vendor package. -/
def redfishdell.ClientType : String := "redfish-dell"

/-- Modelled from the spec: `ManagementConfiguration.Validate` accepts
exactly the recognized management types and rejects every other type with an
"unknown management type" error, before any document selection or network
I/O occurs. -/
def ManagementConfiguration.Validate (m : ManagementConfiguration) : Except RemoteError Unit :=
  if m.type = redfish.ClientType ∨ m.type = redfishdell.ClientType then Except.ok ()
  else Except.error (RemoteError.unknownManagementType m.type)

/-- Modelled from the spec: a constructed vendor client record, holding the
connection/session parameters the factory passes to the vendor package
(address, TLS mode, proxy flag, credentials, retry count, reboot delay). -/
structure Client where
  address : String
  insecure : Bool
  useProxy : Bool
  username : String
  password : String
  systemActionRetries : Nat
  systemRebootDelay : Nat
  dell : Bool
deriving DecidableEq, Repr

/-- Modelled from the spec: `redfish.NewClient` builds a generic Redfish
client from the supplied connection parameters; the construction itself is
recorded as a client-construction event. -/
def redfish.NewClient (address : String) (insecure : Bool) (useProxy : Bool)
    (username : String) (password : String)
    (systemActionRetries : Nat) (systemRebootDelay : Nat) (t : Trace) :
    Unit × Client × Trace :=
  ((), { address := address, insecure := insecure, useProxy := useProxy,
         username := username, password := password,
         systemActionRetries := systemActionRetries,
         systemRebootDelay := systemRebootDelay, dell := false },
   t ++ [Event.clientConstructCall address])

/-- Modelled from the spec: `redfishdell.NewClient` builds a Dell (iDRAC)
Redfish client from the supplied connection parameters. -/
def redfishdell.NewClient (address : String) (insecure : Bool) (useProxy : Bool)
    (username : String) (password : String)
    (systemActionRetries : Nat) (systemRebootDelay : Nat) (t : Trace) :
    Unit × Client × Trace :=
  ((), { address := address, insecure := insecure, useProxy := useProxy,
         username := username, password := password,
         systemActionRetries := systemActionRetries,
         systemRebootDelay := systemRebootDelay, dell := true },
   t ++ [Event.clientConstructCall address])

/-- Modelled from the spec: one declared baremetal host document.  The core
reads only kind/name/labels for selection, a BMC-address field and a
credential reference; the outcomes of resolving the address and the
credentials (possibly via a secret document in the same bundle) are embedded
as fields. -/
structure Document where
  kind : String
  name : String
  labels : List String
  bmcAddress : Except String String
  bmcCredentials : Except String (String × String)
deriving Repr

/-- Modelled from the spec: a document bundle is the set of documents owned
by one phase. -/
structure Bundle where
  docs : List Document
deriving Repr

/-- Modelled from the spec: whether a document matches a selector (kind
equality, optional name equality, optional label membership). -/
def docMatches (s : Selector) (d : Document) : Bool :=
  (s.kind == "" || d.kind == s.kind) &&
  (match s.name with
   | none => true
   | some n => d.name == n) &&
  (match s.label with
   | none => true
   | some l => d.labels.contains l)

/-- Modelled from the spec: `Bundle.Select` returns all documents matching
the selector, recording a document-selection event. -/
def Bundle.Select (b : Bundle) (s : Selector) (t : Trace) : List Document × Trace :=
  (b.docs.filter (fun d => docMatches s d), t ++ [Event.docSelectCall s])

/-- Modelled from the spec: `Bundle.SelectOne` resolves one document
matching the selector; zero matches is a "document not found" error. -/
def Bundle.SelectOne (b : Bundle) (s : Selector) (t : Trace) :
    Except RemoteError Document × Trace :=
  match b.Select s t with
  | (docs, t1) =>
    match docs with
    | [] => (Except.error (RemoteError.docNotFound s), t1)
    | d :: _ => (Except.ok d, t1)

/-- Modelled from the spec: `document.GetBMHBMCAddress` resolves the BMC
address of a host document. -/
def GetBMHBMCAddress (hostDoc : Document) (t : Trace) :
    Except RemoteError String × Trace :=
  (match hostDoc.bmcAddress with
   | Except.ok a => Except.ok a
   | Except.error msg => Except.error (RemoteError.addressError msg),
   t ++ [Event.bmcAddressCall hostDoc.name])

/-- Modelled from the spec: `document.GetBMHBMCCredentials` resolves the
username and password of a host document, possibly via a referenced secret
document within the same bundle. -/
def GetBMHBMCCredentials (hostDoc : Document) (docBundle : Bundle) (t : Trace) :
    Except RemoteError (String × String) × Trace :=
  (match hostDoc.bmcCredentials with
   | Except.ok c => Except.ok c
   | Except.error msg => Except.error (RemoteError.credentialsError msg),
   t ++ [Event.credentialsCall hostDoc.name])

/-- An airshipctl representation of a baremetal host (`baremetalHost`): the
embedded client is the field `client`, the Go `Context` is trivialized. -/
structure baremetalHost where
  client : Client
  context : Unit
  BMCAddress : String
  HostName : String
  username : String
  password : String
deriving Repr

/-- A `Manager` orchestrates a grouping of baremetal hosts. -/
structure Manager where
  Config : ManagementConfiguration
  Hosts : List baremetalHost
deriving Repr

/-- A `HostSelector` populates baremetal hosts within a manager when
supplied with selection criteria. -/
abbrev HostSelector :=
  Manager → ManagementConfiguration → Bundle → Trace → Except RemoteError Manager × Trace

/-- The `newBaremetalHost` factory: resolve the BMC address and the
credentials of the host document, then dispatch on the configured
management type to construct the vendor client; an unrecognized type is an
"unknown management type" error. -/
def newBaremetalHost (mgmtCfg : ManagementConfiguration) (hostDoc : Document)
    (docBundle : Bundle) (t : Trace) : Except RemoteError baremetalHost × Trace :=
  match GetBMHBMCAddress hostDoc t with
  | (Except.error e, t1) => (Except.error e, t1)
  | (Except.ok address, t1) =>
    match GetBMHBMCCredentials hostDoc docBundle t1 with
    | (Except.error e, t2) => (Except.error e, t2)
    | (Except.ok (username, password), t2) =>
      if mgmtCfg.type = redfish.ClientType then
        match redfish.NewClient address mgmtCfg.insecure mgmtCfg.useProxy
            username password mgmtCfg.systemActionRetries mgmtCfg.systemRebootDelay t2 with
        | (ctx, client, t3) =>
          (Except.ok { client := client, context := ctx, BMCAddress := address,
                       HostName := hostDoc.name, username := username, password := password }, t3)
      else if mgmtCfg.type = redfishdell.ClientType then
        match redfishdell.NewClient address mgmtCfg.insecure mgmtCfg.useProxy
            username password mgmtCfg.systemActionRetries mgmtCfg.systemRebootDelay t2 with
        | (ctx, client, t3) =>
          (Except.ok { client := client, context := ctx, BMCAddress := address,
                       HostName := hostDoc.name, username := username, password := password }, t3)
      else
        (Except.error (RemoteError.unknownManagementType mgmtCfg.type), t2)

/-- The `reconcileHosts` step: with an empty existing list the new hosts are
adopted wholesale; otherwise the new hosts whose name occurs among the
existing host names are kept, in the order of the new host list (the Go
code builds a map of existing names and filters the new hosts against it). -/
def reconcileHosts (existingHosts : List baremetalHost)
    (newHosts : List baremetalHost) : List baremetalHost :=
  if existingHosts.length = 0 then newHosts
  else
    let hostNames := existingHosts.map (fun host => host.HostName)
    newHosts.filter (fun host => hostNames.contains host.HostName)

/-- The per-document host-construction loop of `ByLabel`: construct a host
for each matched document in order, aborting on the first failure. -/
def buildHosts (mgmtCfg : ManagementConfiguration) (docBundle : Bundle) :
    List Document → Trace → Except RemoteError (List baremetalHost) × Trace
  | [], t => (Except.ok [], t)
  | doc :: rest, t =>
    match newBaremetalHost mgmtCfg doc docBundle t with
    | (Except.error e, t1) => (Except.error e, t1)
    | (Except.ok host, t1) =>
      match buildHosts mgmtCfg docBundle rest t1 with
      | (Except.error e, t2) => (Except.error e, t2)
      | (Except.ok hosts, t2) => (Except.ok (host :: hosts), t2)

/-- The `ByLabel` selector: select all documents of kind `BareMetalHost`
matching the label, fail with "document not found" on zero matches,
construct one host per matched document and reconcile the result into the
manager. -/
def ByLabel (label : String) : HostSelector := fun a mgmtCfg docBundle t =>
  match docBundle.Select { kind := BareMetalHostKind, name := none, label := some label } t with
  | (docs, t1) =>
    if docs.length = 0 then
      (Except.error (RemoteError.docNotFound
        { kind := BareMetalHostKind, name := none, label := some label }), t1)
    else
      match buildHosts mgmtCfg docBundle docs t1 with
      | (Except.error e, t2) => (Except.error e, t2)
      | (Except.ok matchingHosts, t2) =>
        (Except.ok { a with Hosts := reconcileHosts a.Hosts matchingHosts }, t2)

/-- The `ByName` selector: resolve exactly one document of kind
`BareMetalHost` with the given name, construct its host and reconcile it
into the manager. -/
def ByName (name : String) : HostSelector := fun a mgmtCfg docBundle t =>
  match docBundle.SelectOne { kind := BareMetalHostKind, name := some name, label := none } t with
  | (Except.error e, t1) => (Except.error e, t1)
  | (Except.ok doc, t1) =>
    match newBaremetalHost mgmtCfg doc docBundle t1 with
    | (Except.error e, t2) => (Except.error e, t2)
    | (Except.ok host, t2) =>
      (Except.ok { a with Hosts := reconcileHosts a.Hosts [host] }, t2)

/-- Modelled from the spec: the slice of the airshipctl `Config` the Manager
constructor consumes — the outcome of resolving the current context's
management configuration (`CurrentContextManagementConfig`) and, per phase
name, the outcome of loading the phase's document bundle via the
phase-resolution collaborator (helper, phase client, document root, bundle
factory).  Failure messages are plain strings, wrapped by `NewManager`. -/
structure Config where
  managementConfig : Except String ManagementConfiguration
  phaseBundle : String → Except String Bundle

/-- The selector loop of `NewManager`: run each selector in order against
the manager, aborting on the first failure. -/
def runSelectors (mgmtCfg : ManagementConfiguration) (docBundle : Bundle) :
    List HostSelector → Manager → Trace → Except RemoteError Manager × Trace
  | [], manager, t => (Except.ok manager, t)
  | addHost :: rest, manager, t =>
    match addHost manager mgmtCfg docBundle t with
    | (Except.error e, t1) => (Except.error e, t1)
    | (Except.ok m1, t1) => runSelectors mgmtCfg docBundle rest m1 t1

/-- The `NewManager` constructor, returned as the Go pair
`(*Manager, error)`: resolve the management configuration, validate it, load
the phase's document bundle, fold the selectors over a fresh manager, and
fail with `ErrNoHostsFound` — still returning the manager — when zero hosts
remain. -/
def NewManager (cfg : Config) (phaseName : String) (hosts : List HostSelector)
    (t0 : Trace) : (Option Manager × Option RemoteError) × Trace :=
  match cfg.managementConfig with
  | Except.error msg => ((none, some (RemoteError.configError msg)), t0)
  | Except.ok managementCfg =>
    let t1 := t0 ++ [Event.validateCall]
    match managementCfg.Validate with
    | Except.error e => ((none, some e), t1)
    | Except.ok _ =>
      let t2 := t1 ++ [Event.bundleLoadCall]
      match cfg.phaseBundle phaseName with
      | Except.error msg => ((none, some (RemoteError.bundleLoadError msg)), t2)
      | Except.ok docBundle =>
        let manager : Manager := { Config := managementCfg, Hosts := [] }
        match runSelectors managementCfg docBundle hosts manager t2 with
        | (Except.error e, t3) => ((none, some e), t3)
        | (Except.ok manager, t3) =>
          if manager.Hosts.length = 0 then
            ((some manager, some RemoteError.noHostsFound), t3)
          else
            ((some manager, none), t3)

/-- The two baseline selector strategies, as data. -/
inductive SelSpec where
  | byName (n : String) : SelSpec
  | byLabel (l : String) : SelSpec
deriving DecidableEq, Repr

/-- The document selector a strategy composes. -/
def SelSpec.selector : SelSpec → Selector
  | .byName n => { kind := BareMetalHostKind, name := some n, label := none }
  | .byLabel l => { kind := BareMetalHostKind, name := none, label := some l }

/-- The `HostSelector` a strategy denotes. -/
def SelSpec.toSelector : SelSpec → HostSelector
  | .byName n => ByName n
  | .byLabel l => ByLabel l

/-- The independently-computed match-name set of a strategy against a
bundle: the names of all documents the strategy's selector matches. -/
def SelSpec.matchNames (s : SelSpec) (b : Bundle) : List String :=
  (b.docs.filter (fun d => docMatches s.selector d)).map Document.name

/-- The documents a strategy actually processes into hosts: all matches for
`ByLabel`, the first match for `ByName`. -/
def SelSpec.processedDocs (s : SelSpec) (b : Bundle) : List Document :=
  match s with
  | .byName _ => (b.docs.filter (fun d => docMatches s.selector d)).take 1
  | .byLabel _ => b.docs.filter (fun d => docMatches s.selector d)

/-! Equation lemmas for `newBaremetalHost`, one per control-flow branch. -/

lemma newBaremetalHost_addr_err {mgmtCfg : ManagementConfiguration} {hostDoc : Document}
    {docBundle : Bundle} {msg : String} (t : Trace)
    (ha : hostDoc.bmcAddress = Except.error msg) :
    newBaremetalHost mgmtCfg hostDoc docBundle t =
      (Except.error (RemoteError.addressError msg),
       t ++ [Event.bmcAddressCall hostDoc.name]) := by
  simp [newBaremetalHost, GetBMHBMCAddress, ha]

lemma newBaremetalHost_cred_err {mgmtCfg : ManagementConfiguration} {hostDoc : Document}
    {docBundle : Bundle} {msg : String} {addr : String} (t : Trace)
    (ha : hostDoc.bmcAddress = Except.ok addr)
    (hc : hostDoc.bmcCredentials = Except.error msg) :
    newBaremetalHost mgmtCfg hostDoc docBundle t =
      (Except.error (RemoteError.credentialsError msg),
       t ++ [Event.bmcAddressCall hostDoc.name, Event.credentialsCall hostDoc.name]) := by
  simp [newBaremetalHost, GetBMHBMCAddress, GetBMHBMCCredentials, ha, hc]

lemma newBaremetalHost_redfish {mgmtCfg : ManagementConfiguration} {hostDoc : Document}
    {docBundle : Bundle} {addr u p : String} (t : Trace)
    (hty : mgmtCfg.type = redfish.ClientType)
    (ha : hostDoc.bmcAddress = Except.ok addr)
    (hc : hostDoc.bmcCredentials = Except.ok (u, p)) :
    newBaremetalHost mgmtCfg hostDoc docBundle t =
      (Except.ok
        { client := { address := addr, insecure := mgmtCfg.insecure,
                      useProxy := mgmtCfg.useProxy, username := u, password := p,
                      systemActionRetries := mgmtCfg.systemActionRetries,
                      systemRebootDelay := mgmtCfg.systemRebootDelay, dell := false },
          context := (), BMCAddress := addr, HostName := hostDoc.name,
          username := u, password := p },
       t ++ [Event.bmcAddressCall hostDoc.name, Event.credentialsCall hostDoc.name,
             Event.clientConstructCall addr]) := by
  simp [newBaremetalHost, GetBMHBMCAddress, GetBMHBMCCredentials, redfish.NewClient,
    ha, hc, hty]

lemma newBaremetalHost_dell {mgmtCfg : ManagementConfiguration} {hostDoc : Document}
    {docBundle : Bundle} {addr u p : String} (t : Trace)
    (hty1 : ¬ mgmtCfg.type = redfish.ClientType)
    (hty2 : mgmtCfg.type = redfishdell.ClientType)
    (ha : hostDoc.bmcAddress = Except.ok addr)
    (hc : hostDoc.bmcCredentials = Except.ok (u, p)) :
    newBaremetalHost mgmtCfg hostDoc docBundle t =
      (Except.ok
        { client := { address := addr, insecure := mgmtCfg.insecure,
                      useProxy := mgmtCfg.useProxy, username := u, password := p,
                      systemActionRetries := mgmtCfg.systemActionRetries,
                      systemRebootDelay := mgmtCfg.systemRebootDelay, dell := true },
          context := (), BMCAddress := addr, HostName := hostDoc.name,
          username := u, password := p },
       t ++ [Event.bmcAddressCall hostDoc.name, Event.credentialsCall hostDoc.name,
             Event.clientConstructCall addr]) := by
  simp [newBaremetalHost, GetBMHBMCAddress, GetBMHBMCCredentials, redfishdell.NewClient,
    ha, hc, hty1, hty2]
  intro h
  exact absurd h (by decide)

lemma newBaremetalHost_unknown {mgmtCfg : ManagementConfiguration} {hostDoc : Document}
    {docBundle : Bundle} {addr u p : String} (t : Trace)
    (hty1 : ¬ mgmtCfg.type = redfish.ClientType)
    (hty2 : ¬ mgmtCfg.type = redfishdell.ClientType)
    (ha : hostDoc.bmcAddress = Except.ok addr)
    (hc : hostDoc.bmcCredentials = Except.ok (u, p)) :
    newBaremetalHost mgmtCfg hostDoc docBundle t =
      (Except.error (RemoteError.unknownManagementType mgmtCfg.type),
       t ++ [Event.bmcAddressCall hostDoc.name, Event.credentialsCall hostDoc.name]) := by
  simp [newBaremetalHost, GetBMHBMCAddress, GetBMHBMCCredentials, ha, hc, hty1, hty2]

/-- A successfully constructed host is named after its source document. -/
lemma newBaremetalHost_ok_name {mgmtCfg : ManagementConfiguration} {hostDoc : Document}
    {docBundle : Bundle} {t t' : Trace} {host : baremetalHost}
    (h : newBaremetalHost mgmtCfg hostDoc docBundle t = (Except.ok host, t')) :
    host.HostName = hostDoc.name := by
  cases ha : hostDoc.bmcAddress with
  | error msg =>
    rw [newBaremetalHost_addr_err t ha] at h
    exact absurd (congrArg Prod.fst h) (by simp)
  | ok addr =>
    cases hc : hostDoc.bmcCredentials with
    | error msg =>
      rw [newBaremetalHost_cred_err t ha hc] at h
      exact absurd (congrArg Prod.fst h) (by simp)
    | ok cred =>
      obtain ⟨u, p⟩ := cred
      by_cases hty1 : mgmtCfg.type = redfish.ClientType
      · rw [newBaremetalHost_redfish t hty1 ha hc] at h
        have := congrArg Prod.fst h
        simp at this
        rw [← this]
      · by_cases hty2 : mgmtCfg.type = redfishdell.ClientType
        · rw [newBaremetalHost_dell t hty1 hty2 ha hc] at h
          have := congrArg Prod.fst h
          simp at this
          rw [← this]
        · rw [newBaremetalHost_unknown t hty1 hty2 ha hc] at h
          exact absurd (congrArg Prod.fst h) (by simp)

/-- With a recognized management type and successful address and credential
resolution, host construction succeeds. -/
lemma newBaremetalHost_ok_of {mgmtCfg : ManagementConfiguration} {hostDoc : Document}
    {docBundle : Bundle} (t : Trace)
    (hty : mgmtCfg.type = redfish.ClientType ∨ mgmtCfg.type = redfishdell.ClientType)
    (ha : ∃ addr, hostDoc.bmcAddress = Except.ok addr)
    (hc : ∃ cred, hostDoc.bmcCredentials = Except.ok cred) :
    ∃ host t', newBaremetalHost mgmtCfg hostDoc docBundle t = (Except.ok host, t') := by
  obtain ⟨addr, ha⟩ := ha
  obtain ⟨⟨u, p⟩, hc⟩ := hc
  by_cases hty1 : mgmtCfg.type = redfish.ClientType
  · exact ⟨_, _, newBaremetalHost_redfish t hty1 ha hc⟩
  · have hty2 : mgmtCfg.type = redfishdell.ClientType := hty.resolve_left hty1
    exact ⟨_, _, newBaremetalHost_dell t hty1 hty2 ha hc⟩

/-- A host-construction failure is never the "no hosts found" error. -/
lemma newBaremetalHost_error_ne {mgmtCfg : ManagementConfiguration} {hostDoc : Document}
    {docBundle : Bundle} {t t' : Trace} {e : RemoteError}
    (h : newBaremetalHost mgmtCfg hostDoc docBundle t = (Except.error e, t')) :
    e ≠ RemoteError.noHostsFound := by
  cases ha : hostDoc.bmcAddress with
  | error msg =>
    rw [newBaremetalHost_addr_err t ha] at h
    have hfst := congrArg Prod.fst h
    simp at hfst
    subst hfst
    simp
  | ok addr =>
    cases hc : hostDoc.bmcCredentials with
    | error msg =>
      rw [newBaremetalHost_cred_err t ha hc] at h
      have hfst := congrArg Prod.fst h
      simp at hfst
      subst hfst
      simp
    | ok cred =>
      obtain ⟨u, p⟩ := cred
      by_cases hty1 : mgmtCfg.type = redfish.ClientType
      · rw [newBaremetalHost_redfish t hty1 ha hc] at h
        exact absurd (congrArg Prod.fst h) (by simp)
      · by_cases hty2 : mgmtCfg.type = redfishdell.ClientType
        · rw [newBaremetalHost_dell t hty1 hty2 ha hc] at h
          exact absurd (congrArg Prod.fst h) (by simp)
        · rw [newBaremetalHost_unknown t hty1 hty2 ha hc] at h
          have hfst := congrArg Prod.fst h
          simp at hfst
          subst hfst
          simp

/-! Equation lemmas for the two selectors and the host-construction loop. -/

lemma ByName_not_found {name : String} {docBundle : Bundle} (a : Manager)
    (mgmtCfg : ManagementConfiguration) (t : Trace)
    (hf : docBundle.docs.filter
      (fun d => docMatches { kind := BareMetalHostKind, name := some name, label := none } d) = []) :
    ByName name a mgmtCfg docBundle t =
      (Except.error (RemoteError.docNotFound
        { kind := BareMetalHostKind, name := some name, label := none }),
       t ++ [Event.docSelectCall { kind := BareMetalHostKind, name := some name, label := none }]) := by
  simp [ByName, Bundle.SelectOne, Bundle.Select, hf]

lemma ByName_found {name : String} {docBundle : Bundle} {d : Document} {rest : List Document}
    (a : Manager) (mgmtCfg : ManagementConfiguration) (t : Trace)
    (hf : docBundle.docs.filter
      (fun d => docMatches { kind := BareMetalHostKind, name := some name, label := none } d)
        = d :: rest) :
    ByName name a mgmtCfg docBundle t =
      (match newBaremetalHost mgmtCfg d docBundle
          (t ++ [Event.docSelectCall
            { kind := BareMetalHostKind, name := some name, label := none }]) with
       | (Except.error e, t2) => (Except.error e, t2)
       | (Except.ok host, t2) =>
         (Except.ok { a with Hosts := reconcileHosts a.Hosts [host] }, t2)) := by
  simp [ByName, Bundle.SelectOne, Bundle.Select, hf]

lemma ByLabel_not_found {label : String} {docBundle : Bundle} (a : Manager)
    (mgmtCfg : ManagementConfiguration) (t : Trace)
    (hf : docBundle.docs.filter
      (fun d => docMatches { kind := BareMetalHostKind, name := none, label := some label } d) = []) :
    ByLabel label a mgmtCfg docBundle t =
      (Except.error (RemoteError.docNotFound
        { kind := BareMetalHostKind, name := none, label := some label }),
       t ++ [Event.docSelectCall { kind := BareMetalHostKind, name := none, label := some label }]) := by
  simp [ByLabel, Bundle.Select, hf]

lemma ByLabel_found {label : String} {docBundle : Bundle} {docs : List Document}
    (a : Manager) (mgmtCfg : ManagementConfiguration) (t : Trace)
    (hf : docBundle.docs.filter
      (fun d => docMatches { kind := BareMetalHostKind, name := none, label := some label } d)
        = docs)
    (hne : docs ≠ []) :
    ByLabel label a mgmtCfg docBundle t =
      (match buildHosts mgmtCfg docBundle docs
          (t ++ [Event.docSelectCall
            { kind := BareMetalHostKind, name := none, label := some label }]) with
       | (Except.error e, t2) => (Except.error e, t2)
       | (Except.ok matchingHosts, t2) =>
         (Except.ok { a with Hosts := reconcileHosts a.Hosts matchingHosts }, t2)) := by
  have hlen : docs.length ≠ 0 := by simpa using hne
  simp [ByLabel, Bundle.Select, hf, hlen]

/-- A successful host-construction loop names the hosts after their source
documents, in order. -/
lemma buildHosts_ok_names {mgmtCfg : ManagementConfiguration} {docBundle : Bundle} :
    ∀ {docs : List Document} {t t' : Trace} {hs : List baremetalHost},
      buildHosts mgmtCfg docBundle docs t = (Except.ok hs, t') →
      hs.map baremetalHost.HostName = docs.map Document.name := by
  intro docs
  induction docs with
  | nil =>
    intro t t' hs h
    simp [buildHosts] at h
    simp [h.1.symm]
  | cons d rest ih =>
    intro t t' hs h
    cases hnb : newBaremetalHost mgmtCfg d docBundle t with
    | mk r1 t1 =>
      cases r1 with
      | error e =>
        simp only [buildHosts, hnb] at h
        exact absurd (congrArg Prod.fst h) (by simp)
      | ok host =>
        cases hbh : buildHosts mgmtCfg docBundle rest t1 with
        | mk r2 t2 =>
          cases r2 with
          | error e =>
            simp only [buildHosts, hnb, hbh] at h
            exact absurd (congrArg Prod.fst h) (by simp)
          | ok hosts =>
            simp only [buildHosts, hnb, hbh] at h
            have hfst := congrArg Prod.fst h
            simp at hfst
            rw [← hfst]
            simp [newBaremetalHost_ok_name hnb, ih hbh]

/-- When every document resolves and the management type is recognized, the
host-construction loop succeeds. -/
lemma buildHosts_ok_of {mgmtCfg : ManagementConfiguration} {docBundle : Bundle}
    (hty : mgmtCfg.type = redfish.ClientType ∨ mgmtCfg.type = redfishdell.ClientType) :
    ∀ {docs : List Document}, (∀ d ∈ docs, (∃ addr, d.bmcAddress = Except.ok addr) ∧
      ∃ cred, d.bmcCredentials = Except.ok cred) →
      ∀ t, ∃ hs t', buildHosts mgmtCfg docBundle docs t = (Except.ok hs, t') := by
  intro docs
  induction docs with
  | nil => intro _ t; exact ⟨[], t, rfl⟩
  | cons d rest ih =>
    intro hres t
    obtain ⟨host, t1, h1⟩ :=
      @newBaremetalHost_ok_of _ d docBundle t hty (hres d (by simp)).1 (hres d (by simp)).2
    obtain ⟨hs, t2, h2⟩ := ih (fun d hd => hres d (by simp [hd])) t1
    exact ⟨host :: hs, t2, by simp [buildHosts, h1, h2]⟩

/-- An error of the host-construction loop is an error of some document's
host construction; in particular it is never the "no hosts found" error. -/
lemma buildHosts_error_ne {mgmtCfg : ManagementConfiguration} {docBundle : Bundle} :
    ∀ {docs : List Document} {t t' : Trace} {e : RemoteError},
      buildHosts mgmtCfg docBundle docs t = (Except.error e, t') →
      e ≠ RemoteError.noHostsFound := by
  intro docs
  induction docs with
  | nil =>
    intro t t' e h
    exact absurd (congrArg Prod.fst h) (by simp [buildHosts])
  | cons d rest ih =>
    intro t t' e h
    cases hnb : newBaremetalHost mgmtCfg d docBundle t with
    | mk r1 t1 =>
      cases r1 with
      | error e1 =>
        simp only [buildHosts, hnb] at h
        have hfst := congrArg Prod.fst h
        simp at hfst
        exact hfst ▸ newBaremetalHost_error_ne hnb
      | ok host =>
        cases hbh : buildHosts mgmtCfg docBundle rest t1 with
        | mk r2 t2 =>
          cases r2 with
          | error e2 =>
            simp only [buildHosts, hnb, hbh] at h
            have hfst := congrArg Prod.fst h
            simp at hfst
            exact hfst ▸ ih hbh
          | ok hosts =>
            simp only [buildHosts, hnb, hbh] at h
            exact absurd (congrArg Prod.fst h) (by simp)

/-- Host construction aborts with the failure of the first document whose
resolution fails, provided all earlier documents resolve. -/
lemma buildHosts_firstFail {mgmtCfg : ManagementConfiguration} {docBundle : Bundle}
    (hty : mgmtCfg.type = redfish.ClientType ∨ mgmtCfg.type = redfishdell.ClientType)
    {d : Document} {ds2 : List Document} {e : RemoteError}
    (hd : ∀ t, ∃ t', newBaremetalHost mgmtCfg d docBundle t = (Except.error e, t')) :
    ∀ {ds1 : List Document}, (∀ d' ∈ ds1, (∃ addr, d'.bmcAddress = Except.ok addr) ∧
      ∃ cred, d'.bmcCredentials = Except.ok cred) →
      ∀ t, ∃ t', buildHosts mgmtCfg docBundle (ds1 ++ d :: ds2) t = (Except.error e, t') := by
  intro ds1
  induction ds1 with
  | nil =>
    intro _ t
    obtain ⟨t', h'⟩ := hd t
    exact ⟨t', by simp [buildHosts, h']⟩
  | cons d1 rest ih =>
    intro hres t
    obtain ⟨host, t1, h1⟩ :=
      @newBaremetalHost_ok_of _ d1 docBundle t hty (hres d1 (by simp)).1 (hres d1 (by simp)).2
    obtain ⟨t', h'⟩ := ih (fun d' hd' => hres d' (by simp [hd'])) t1
    exact ⟨t', by simp [buildHosts, h1, h']⟩

/-! Membership of host names through reconciliation. -/

lemma reconcileHosts_nil (newHosts : List baremetalHost) :
    reconcileHosts [] newHosts = newHosts := by
  simp [reconcileHosts]

lemma reconcileHosts_ne_nil {existingHosts : List baremetalHost}
    (hne : existingHosts ≠ []) (newHosts : List baremetalHost) :
    reconcileHosts existingHosts newHosts =
      newHosts.filter (fun host =>
        (existingHosts.map (fun h => h.HostName)).contains host.HostName) := by
  have hlen : existingHosts.length ≠ 0 := by simpa using hne
  simp [reconcileHosts, hlen]

lemma reconcileHosts_mem_name {existingHosts : List baremetalHost}
    (hne : existingHosts ≠ []) (newHosts : List baremetalHost) (x : String) :
    x ∈ (reconcileHosts existingHosts newHosts).map baremetalHost.HostName ↔
      x ∈ newHosts.map baremetalHost.HostName ∧
        x ∈ existingHosts.map baremetalHost.HostName := by
  rw [reconcileHosts_ne_nil hne]
  simp only [List.mem_map, List.mem_filter]
  constructor
  · rintro ⟨h, ⟨hh, hcont⟩, rfl⟩
    have hmem : h.HostName ∈ existingHosts.map (fun h => h.HostName) := by
      simpa using hcont
    simp only [List.mem_map] at hmem
    obtain ⟨h2, hh2, hn2⟩ := hmem
    exact ⟨⟨h, hh, rfl⟩, ⟨h2, hh2, hn2⟩⟩
  · rintro ⟨⟨h, hh, rfl⟩, ⟨h2, hh2, hn2⟩⟩
    refine ⟨h, ⟨hh, ?_⟩, rfl⟩
    have : h.HostName ∈ existingHosts.map (fun h => h.HostName) :=
      List.mem_map.mpr ⟨h2, hh2, hn2⟩
    simpa using this

/-- A document matching a by-name selector carries that name. -/
lemma docMatches_byName_name {n : String} {d : Document}
    (h : docMatches { kind := BareMetalHostKind, name := some n, label := none } d = true) :
    d.name = n := by
  simp [docMatches] at h
  exact h.2

/-- A successful selector application contributes a non-empty host list whose
names are exactly its independently-computed match-name set, reconciled into
the manager; the configuration snapshot is untouched. -/
lemma toSelector_ok_names {s : SelSpec} {a a' : Manager} {mgmtCfg : ManagementConfiguration}
    {b : Bundle} {t t' : Trace}
    (h : SelSpec.toSelector s a mgmtCfg b t = (Except.ok a', t')) :
    ∃ hs, hs ≠ [] ∧ a'.Hosts = reconcileHosts a.Hosts hs ∧ a'.Config = a.Config ∧
      ∀ x, x ∈ hs.map baremetalHost.HostName ↔ x ∈ s.matchNames b := by
  cases s with
  | byName n =>
    simp only [SelSpec.toSelector] at h
    cases hf : b.docs.filter
        (fun d => docMatches { kind := BareMetalHostKind, name := some n, label := none } d) with
    | nil =>
      rw [ByName_not_found a mgmtCfg t hf] at h
      exact absurd (congrArg Prod.fst h) (by simp)
    | cons d rest =>
      rw [ByName_found a mgmtCfg t hf] at h
      cases hnb : newBaremetalHost mgmtCfg d b
          (t ++ [Event.docSelectCall
            { kind := BareMetalHostKind, name := some n, label := none }]) with
      | mk r1 t2 =>
        cases r1 with
        | error e =>
          simp only [hnb] at h
          exact absurd (congrArg Prod.fst h) (by simp)
        | ok host =>
          simp only [hnb] at h
          have hfst := congrArg Prod.fst h
          simp at hfst
          refine ⟨[host], by simp, ?_, ?_, ?_⟩
          · rw [← hfst]
          · rw [← hfst]
          · intro x
            have hname : host.HostName = d.name := newBaremetalHost_ok_name hnb
            have hdn : d.name = n :=
              docMatches_byName_name (List.of_mem_filter (hf ▸ List.mem_cons_self d rest))
            have hall : ∀ y ∈ (d :: rest).map Document.name, y = n := by
              intro y hy
              simp only [List.mem_map] at hy
              obtain ⟨d2, hd2, rfl⟩ := hy
              exact docMatches_byName_name (List.of_mem_filter (hf ▸ hd2))
            simp only [SelSpec.matchNames, SelSpec.selector, hf]
            constructor
            · intro hx
              simp only [List.map_cons, List.map_nil, List.mem_singleton] at hx
              subst hx
              rw [hname]
              exact List.mem_map.mpr ⟨d, List.mem_cons_self d rest, rfl⟩
            · intro hx
              have hxn := hall x hx
              subst hxn
              simp [hname, hdn]
  | byLabel l =>
    simp only [SelSpec.toSelector] at h
    cases hf : b.docs.filter
        (fun d => docMatches { kind := BareMetalHostKind, name := none, label := some l } d) with
    | nil =>
      rw [ByLabel_not_found a mgmtCfg t hf] at h
      exact absurd (congrArg Prod.fst h) (by simp)
    | cons d rest =>
      rw [ByLabel_found a mgmtCfg t hf (by simp)] at h
      cases hbh : buildHosts mgmtCfg b (d :: rest)
          (t ++ [Event.docSelectCall
            { kind := BareMetalHostKind, name := none, label := some l }]) with
      | mk r1 t2 =>
        cases r1 with
        | error e =>
          simp only [hbh] at h
          exact absurd (congrArg Prod.fst h) (by simp)
        | ok hs =>
          simp only [hbh] at h
          have hfst := congrArg Prod.fst h
          simp at hfst
          have hnames := buildHosts_ok_names hbh
          refine ⟨hs, ?_, ?_, ?_, ?_⟩
          · intro hnil
            rw [hnil] at hnames
            exact absurd hnames.symm (by simp)
          · rw [← hfst]
          · rw [← hfst]
          · intro x
            rw [hnames]
            simp [SelSpec.matchNames, SelSpec.selector, hf]

/-- A failing selector application never fails with `noHostsFound`: its
errors are selection or host-construction errors. -/
lemma toSelector_error_ne {s : SelSpec} {a : Manager} {mgmtCfg : ManagementConfiguration}
    {b : Bundle} {t t' : Trace} {e : RemoteError}
    (h : SelSpec.toSelector s a mgmtCfg b t = (Except.error e, t')) :
    e ≠ RemoteError.noHostsFound := by
  cases s with
  | byName n =>
    simp only [SelSpec.toSelector] at h
    cases hf : b.docs.filter
        (fun d => docMatches { kind := BareMetalHostKind, name := some n, label := none } d) with
    | nil =>
      rw [ByName_not_found a mgmtCfg t hf] at h
      have hfst := congrArg Prod.fst h
      simp at hfst
      subst hfst
      simp
    | cons d rest =>
      rw [ByName_found a mgmtCfg t hf] at h
      cases hnb : newBaremetalHost mgmtCfg d b
          (t ++ [Event.docSelectCall
            { kind := BareMetalHostKind, name := some n, label := none }]) with
      | mk r1 t2 =>
        cases r1 with
        | error e1 =>
          simp only [hnb] at h
          have hfst := congrArg Prod.fst h
          simp at hfst
          exact hfst ▸ newBaremetalHost_error_ne hnb
        | ok host =>
          simp only [hnb] at h
          exact absurd (congrArg Prod.fst h) (by simp)
  | byLabel l =>
    simp only [SelSpec.toSelector] at h
    cases hf : b.docs.filter
        (fun d => docMatches { kind := BareMetalHostKind, name := none, label := some l } d) with
    | nil =>
      rw [ByLabel_not_found a mgmtCfg t hf] at h
      have hfst := congrArg Prod.fst h
      simp at hfst
      subst hfst
      simp
    | cons d rest =>
      rw [ByLabel_found a mgmtCfg t hf (by simp)] at h
      cases hbh : buildHosts mgmtCfg b (d :: rest)
          (t ++ [Event.docSelectCall
            { kind := BareMetalHostKind, name := none, label := some l }]) with
      | mk r1 t2 =>
        cases r1 with
        | error e1 =>
          simp only [hbh] at h
          have hfst := congrArg Prod.fst h
          simp at hfst
          exact hfst ▸ buildHosts_error_ne hbh
        | ok hs =>
          simp only [hbh] at h
          exact absurd (congrArg Prod.fst h) (by simp)

/-- Running the concatenation of two selector lists runs the first list and,
on success, continues with the second from the intermediate manager. -/
lemma runSelectors_append (mgmtCfg : ManagementConfiguration) (b : Bundle)
    (xs ys : List HostSelector) :
    ∀ (a : Manager) (t : Trace),
      runSelectors mgmtCfg b (xs ++ ys) a t =
        (match runSelectors mgmtCfg b xs a t with
         | (Except.error e, t1) => (Except.error e, t1)
         | (Except.ok m1, t1) => runSelectors mgmtCfg b ys m1 t1) := by
  induction xs with
  | nil => intro a t; simp [runSelectors]
  | cons f rest ih =>
    intro a t
    cases hf : f a mgmtCfg b t with
    | mk r1 t1 =>
      cases r1 with
      | error e => simp [runSelectors, hf]
      | ok m1 => simp only [List.cons_append, runSelectors, hf]; exact ih m1 t1

/-- The selector loop over the baseline strategies never changes the
manager's configuration snapshot. -/
lemma runSelectors_specs_config {mgmtCfg : ManagementConfiguration} {b : Bundle} :
    ∀ (specs : List SelSpec) (a m : Manager) (t t' : Trace),
      runSelectors mgmtCfg b (specs.map SelSpec.toSelector) a t = (Except.ok m, t') →
      m.Config = a.Config := by
  intro specs
  induction specs with
  | nil =>
    intro a m t t' h
    have hfst := congrArg Prod.fst h
    simp [runSelectors] at hfst
    rw [← hfst]
  | cons s rest ih =>
    intro a m t t' h
    cases hf : SelSpec.toSelector s a mgmtCfg b t with
    | mk r1 t1 =>
      cases r1 with
      | error e =>
        simp only [List.map_cons, runSelectors, hf] at h
        exact absurd (congrArg Prod.fst h) (by simp)
      | ok m1 =>
        simp only [List.map_cons, runSelectors, hf] at h
        obtain ⟨hs, _, _, hcfg, _⟩ := toSelector_ok_names hf
        rw [ih m1 m t1 t' h, hcfg]

/-- The selector loop over the baseline strategies never fails with the
"no hosts found" error. -/
lemma runSelectors_specs_error_ne {mgmtCfg : ManagementConfiguration} {b : Bundle} :
    ∀ (specs : List SelSpec) (a : Manager) (t t' : Trace) (e : RemoteError),
      runSelectors mgmtCfg b (specs.map SelSpec.toSelector) a t = (Except.error e, t') →
      e ≠ RemoteError.noHostsFound := by
  intro specs
  induction specs with
  | nil =>
    intro a t t' e h
    exact absurd (congrArg Prod.fst h) (by simp [runSelectors])
  | cons s rest ih =>
    intro a t t' e h
    cases hf : SelSpec.toSelector s a mgmtCfg b t with
    | mk r1 t1 =>
      cases r1 with
      | error e1 =>
        simp only [List.map_cons, runSelectors, hf] at h
        have hfst := congrArg Prod.fst h
        simp at hfst
        exact hfst ▸ toSelector_error_ne hf
      | ok m1 =>
        simp only [List.map_cons, runSelectors, hf] at h
        exact ih m1 t1 t' e h

/-- Intersection invariant of the selector loop: starting from a manager
with a non-empty host set, a successful loop intersects the host-name set
with each strategy's match set, provided every intermediate intersection is
non-empty while selectors remain to run. -/
lemma runSelectors_inter {mgmtCfg : ManagementConfiguration} {b : Bundle} :
    ∀ (specs : List SelSpec) (a m : Manager) (t t' : Trace),
      a.Hosts ≠ [] →
      (∀ j, 0 < j → j < specs.length →
        ∃ y, y ∈ a.Hosts.map baremetalHost.HostName ∧
          ∀ s ∈ specs.take j, y ∈ s.matchNames b) →
      runSelectors mgmtCfg b (specs.map SelSpec.toSelector) a t = (Except.ok m, t') →
      ∀ x, x ∈ m.Hosts.map baremetalHost.HostName ↔
        x ∈ a.Hosts.map baremetalHost.HostName ∧ ∀ s ∈ specs, x ∈ s.matchNames b := by
  intro specs
  induction specs with
  | nil =>
    intro a m t t' hne hmid h x
    have hfst := congrArg Prod.fst h
    simp [runSelectors] at hfst
    subst hfst
    simp
  | cons s rest ih =>
    intro a m t t' hne hmid h x
    cases hf : SelSpec.toSelector s a mgmtCfg b t with
    | mk r1 t1 =>
      cases r1 with
      | error e =>
        simp only [List.map_cons, runSelectors, hf] at h
        exact absurd (congrArg Prod.fst h) (by simp)
      | ok m1 =>
        simp only [List.map_cons, runSelectors, hf] at h
        obtain ⟨hs, hhs, hrec, hcfg, hmem⟩ := toSelector_ok_names hf
        have hm1 : ∀ y, y ∈ m1.Hosts.map baremetalHost.HostName ↔
            y ∈ a.Hosts.map baremetalHost.HostName ∧ y ∈ s.matchNames b := by
          intro y
          rw [hrec, reconcileHosts_mem_name hne hs y, hmem y]
          exact and_comm
        by_cases hrest : rest = []
        · subst hrest
          have hfst := congrArg Prod.fst h
          simp [runSelectors] at hfst
          subst hfst
          rw [hm1 x]
          simp
        · have hlen : 0 < rest.length := List.length_pos.mpr hrest
          obtain ⟨y, hy1, hy2⟩ := hmid 1 (by omega) (by simp; omega)
          have hy3 : y ∈ s.matchNames b := by
            have := hy2 s
            simp [List.take_succ_cons] at this
            exact this
          have hym1 : y ∈ m1.Hosts.map baremetalHost.HostName := (hm1 y).mpr ⟨hy1, hy3⟩
          have hm1ne : m1.Hosts ≠ [] := by
            intro hnil
            rw [hnil] at hym1
            simp at hym1
          have hmid' : ∀ j, 0 < j → j < rest.length →
              ∃ z, z ∈ m1.Hosts.map baremetalHost.HostName ∧
                ∀ s' ∈ rest.take j, z ∈ s'.matchNames b := by
            intro j hj hjlen
            obtain ⟨z, hz1, hz2⟩ := hmid (j + 1) (by omega) (by simp; omega)
            rw [List.take_succ_cons] at hz2
            have hzs : z ∈ s.matchNames b := hz2 s (List.mem_cons_self s _)
            exact ⟨z, (hm1 z).mpr ⟨hz1, hzs⟩,
              fun s' hs' => hz2 s' (List.mem_cons_of_mem s hs')⟩
          rw [ih m1 m t1 t' hm1ne hmid' h x, hm1 x, List.forall_mem_cons]
          tauto

/-- Inversion of a `NewManager` run that returned a manager: validation
succeeded and the selector loop succeeded on that manager, with the final
trace. -/
lemma NewManager_some_inv {cfg : Config} {phase : String} {sels : List HostSelector}
    {m : Manager} {e : Option RemoteError} {tr : Trace} {mc : ManagementConfiguration}
    {b : Bundle}
    (hmc : cfg.managementConfig = Except.ok mc)
    (hb : cfg.phaseBundle phase = Except.ok b)
    (h : NewManager cfg phase sels [] = ((some m, e), tr)) :
    mc.Validate = Except.ok () ∧
      runSelectors mc b sels { Config := mc, Hosts := [] }
        [Event.validateCall, Event.bundleLoadCall] = (Except.ok m, tr) := by
  simp only [NewManager, hmc] at h
  cases hv : mc.Validate with
  | error e1 =>
    simp only [hv] at h
    exact absurd (congrArg (fun r => r.1.1) h) (by simp)
  | ok u =>
    cases u
    simp only [hv, hb, List.nil_append] at h
    refine ⟨rfl, ?_⟩
    cases hr : runSelectors mc b sels { Config := mc, Hosts := [] }
        [Event.validateCall, Event.bundleLoadCall] with
    | mk r1 t3 =>
      cases r1 with
      | error e1 =>
        rw [show ([Event.validateCall] ++ [Event.bundleLoadCall] : Trace)
            = [Event.validateCall, Event.bundleLoadCall] from rfl] at h
        simp only [hr] at h
        exact absurd (congrArg (fun r => r.1.1) h) (by simp)
      | ok m1 =>
        rw [show ([Event.validateCall] ++ [Event.bundleLoadCall] : Trace)
            = [Event.validateCall, Event.bundleLoadCall] from rfl] at h
        simp only [hr] at h
        by_cases hlen : m1.Hosts.length = 0
        · simp only [hlen, if_pos] at h
          have h1 := congrArg (fun r => r.1.1) h
          have h2 := congrArg Prod.snd h
          simp at h1 h2
          rw [h1, h2]
        · simp only [if_neg hlen] at h
          have h1 := congrArg (fun r => r.1.1) h
          have h2 := congrArg Prod.snd h
          simp at h1 h2
          rw [h1, h2]

/-- Trace well-formedness for the validation step: the validate call is the
first event and occurs nowhere else. -/
def validateOnceAtHead (t : Trace) : Prop :=
  ∃ rest, t = Event.validateCall :: rest ∧ Event.validateCall ∉ rest

lemma validateOnceAtHead_append {t es : Trace} (h : validateOnceAtHead t)
    (hes : Event.validateCall ∉ es) : validateOnceAtHead (t ++ es) := by
  obtain ⟨rest, rfl, hr⟩ := h
  exact ⟨rest ++ es, by simp, by simp [hr, hes]⟩

lemma newBaremetalHost_validateOnce {mgmtCfg : ManagementConfiguration}
    {hostDoc : Document} {docBundle : Bundle} (t : Trace)
    (h : validateOnceAtHead t) :
    validateOnceAtHead (newBaremetalHost mgmtCfg hostDoc docBundle t).2 := by
  cases ha : hostDoc.bmcAddress with
  | error msg =>
    rw [newBaremetalHost_addr_err t ha]
    exact validateOnceAtHead_append h (by simp)
  | ok addr =>
    cases hc : hostDoc.bmcCredentials with
    | error msg =>
      rw [newBaremetalHost_cred_err t ha hc]
      exact validateOnceAtHead_append h (by simp)
    | ok cred =>
      obtain ⟨u, p⟩ := cred
      by_cases hty1 : mgmtCfg.type = redfish.ClientType
      · rw [newBaremetalHost_redfish t hty1 ha hc]
        exact validateOnceAtHead_append h (by simp)
      · by_cases hty2 : mgmtCfg.type = redfishdell.ClientType
        · rw [newBaremetalHost_dell t hty1 hty2 ha hc]
          exact validateOnceAtHead_append h (by simp)
        · rw [newBaremetalHost_unknown t hty1 hty2 ha hc]
          exact validateOnceAtHead_append h (by simp)

lemma buildHosts_validateOnce {mgmtCfg : ManagementConfiguration} {docBundle : Bundle} :
    ∀ (docs : List Document) (t : Trace), validateOnceAtHead t →
      validateOnceAtHead (buildHosts mgmtCfg docBundle docs t).2 := by
  intro docs
  induction docs with
  | nil => intro t h; exact h
  | cons d rest ih =>
    intro t h
    cases hnb : newBaremetalHost mgmtCfg d docBundle t with
    | mk r1 t1 =>
      have h1 : validateOnceAtHead t1 := by
        have := @newBaremetalHost_validateOnce mgmtCfg d docBundle t h
        rw [hnb] at this
        exact this
      cases r1 with
      | error e => simp only [buildHosts, hnb]; exact h1
      | ok host =>
        cases hbh : buildHosts mgmtCfg docBundle rest t1 with
        | mk r2 t2 =>
          have h2 : validateOnceAtHead t2 := by
            have := ih t1 h1
            rw [hbh] at this
            exact this
          cases r2 with
          | error e => simp only [buildHosts, hnb, hbh]; exact h2
          | ok hosts => simp only [buildHosts, hnb, hbh]; exact h2

lemma toSelector_validateOnce {s : SelSpec} {a : Manager}
    {mgmtCfg : ManagementConfiguration} {b : Bundle} (t : Trace)
    (h : validateOnceAtHead t) :
    validateOnceAtHead (SelSpec.toSelector s a mgmtCfg b t).2 := by
  cases s with
  | byName n =>
    simp only [SelSpec.toSelector]
    cases hf : b.docs.filter
        (fun d => docMatches { kind := BareMetalHostKind, name := some n, label := none } d) with
    | nil =>
      rw [ByName_not_found a mgmtCfg t hf]
      exact validateOnceAtHead_append h (by simp)
    | cons d rest =>
      rw [ByName_found a mgmtCfg t hf]
      have h1 : validateOnceAtHead
          (t ++ [Event.docSelectCall
            { kind := BareMetalHostKind, name := some n, label := none }]) :=
        validateOnceAtHead_append h (by simp)
      cases hnb : newBaremetalHost mgmtCfg d b
          (t ++ [Event.docSelectCall
            { kind := BareMetalHostKind, name := some n, label := none }]) with
      | mk r1 t2 =>
        have h2 : validateOnceAtHead t2 := by
          have := @newBaremetalHost_validateOnce mgmtCfg d b
            (t ++ [Event.docSelectCall
              { kind := BareMetalHostKind, name := some n, label := none }]) h1
          rw [hnb] at this
          exact this
        cases r1 with
        | error e => exact h2
        | ok host => exact h2
  | byLabel l =>
    simp only [SelSpec.toSelector]
    cases hf : b.docs.filter
        (fun d => docMatches { kind := BareMetalHostKind, name := none, label := some l } d) with
    | nil =>
      rw [ByLabel_not_found a mgmtCfg t hf]
      exact validateOnceAtHead_append h (by simp)
    | cons d rest =>
      rw [ByLabel_found a mgmtCfg t hf (by simp)]
      have h1 : validateOnceAtHead
          (t ++ [Event.docSelectCall
            { kind := BareMetalHostKind, name := none, label := some l }]) :=
        validateOnceAtHead_append h (by simp)
      cases hbh : buildHosts mgmtCfg b (d :: rest)
          (t ++ [Event.docSelectCall
            { kind := BareMetalHostKind, name := none, label := some l }]) with
      | mk r1 t2 =>
        have h2 : validateOnceAtHead t2 := by
          have := @buildHosts_validateOnce mgmtCfg b (d :: rest)
            (t ++ [Event.docSelectCall
              { kind := BareMetalHostKind, name := none, label := some l }]) h1
          rw [hbh] at this
          exact this
        cases r1 with
        | error e => exact h2
        | ok hs => exact h2

lemma runSelectors_validateOnce {mgmtCfg : ManagementConfiguration} {b : Bundle} :
    ∀ (specs : List SelSpec) (a : Manager) (t : Trace), validateOnceAtHead t →
      validateOnceAtHead
        (runSelectors mgmtCfg b (specs.map SelSpec.toSelector) a t).2 := by
  intro specs
  induction specs with
  | nil => intro a t h; exact h
  | cons s rest ih =>
    intro a t h
    cases hf : SelSpec.toSelector s a mgmtCfg b t with
    | mk r1 t1 =>
      have h1 : validateOnceAtHead t1 := by
        have := @toSelector_validateOnce s a mgmtCfg b t h
        rw [hf] at this
        exact this
      cases r1 with
      | error e => simp only [List.map_cons, runSelectors, hf]; exact h1
      | ok m1 =>
        simp only [List.map_cons, runSelectors, hf]
        exact ih m1 t1 h1

/-- Shape of a successful selector contribution: the reconciled host list
comes from a host list that is either named exactly by the match-name list
(`ByLabel`) or a single host (`ByName`). -/
lemma toSelector_ok_hostsShape {s : SelSpec} {a a' : Manager}
    {mgmtCfg : ManagementConfiguration} {b : Bundle} {t t' : Trace}
    (h : SelSpec.toSelector s a mgmtCfg b t = (Except.ok a', t')) :
    ∃ hs, a'.Hosts = reconcileHosts a.Hosts hs ∧
      (hs.map baremetalHost.HostName = s.matchNames b ∨ ∃ host, hs = [host]) := by
  cases s with
  | byName n =>
    simp only [SelSpec.toSelector] at h
    cases hf : b.docs.filter
        (fun d => docMatches { kind := BareMetalHostKind, name := some n, label := none } d) with
    | nil =>
      rw [ByName_not_found a mgmtCfg t hf] at h
      exact absurd (congrArg Prod.fst h) (by simp)
    | cons d rest =>
      rw [ByName_found a mgmtCfg t hf] at h
      cases hnb : newBaremetalHost mgmtCfg d b
          (t ++ [Event.docSelectCall
            { kind := BareMetalHostKind, name := some n, label := none }]) with
      | mk r1 t2 =>
        cases r1 with
        | error e =>
          simp only [hnb] at h
          exact absurd (congrArg Prod.fst h) (by simp)
        | ok host =>
          simp only [hnb] at h
          have hfst := congrArg Prod.fst h
          simp at hfst
          exact ⟨[host], by rw [← hfst], Or.inr ⟨host, rfl⟩⟩
  | byLabel l =>
    simp only [SelSpec.toSelector] at h
    cases hf : b.docs.filter
        (fun d => docMatches { kind := BareMetalHostKind, name := none, label := some l } d) with
    | nil =>
      rw [ByLabel_not_found a mgmtCfg t hf] at h
      exact absurd (congrArg Prod.fst h) (by simp)
    | cons d rest =>
      rw [ByLabel_found a mgmtCfg t hf (by simp)] at h
      cases hbh : buildHosts mgmtCfg b (d :: rest)
          (t ++ [Event.docSelectCall
            { kind := BareMetalHostKind, name := none, label := some l }]) with
      | mk r1 t2 =>
        cases r1 with
        | error e =>
          simp only [hbh] at h
          exact absurd (congrArg Prod.fst h) (by simp)
        | ok hs =>
          simp only [hbh] at h
          have hfst := congrArg Prod.fst h
          simp at hfst
          refine ⟨hs, by rw [← hfst], Or.inl ?_⟩
          rw [buildHosts_ok_names hbh]
          simp [SelSpec.matchNames, SelSpec.selector, hf]

/-- Reconciliation preserves name-uniqueness of the incoming host list. -/
lemma reconcileHosts_nodup {ex hs : List baremetalHost}
    (h : (hs.map baremetalHost.HostName).Nodup) :
    ((reconcileHosts ex hs).map baremetalHost.HostName).Nodup := by
  by_cases hne : ex = []
  · subst hne
    rw [reconcileHosts_nil]
    exact h
  · rw [reconcileHosts_ne_nil hne]
    exact h.sublist ((List.filter_sublist hs).map baremetalHost.HostName)

/-- Under per-selector distinctness of match names, the selector loop keeps
the manager host names pairwise distinct. -/
lemma runSelectors_specs_nodup {mgmtCfg : ManagementConfiguration} {b : Bundle} :
    ∀ (specs : List SelSpec) (a m : Manager) (t t' : Trace),
      (∀ s ∈ specs, (s.matchNames b).Nodup) →
      (a.Hosts.map baremetalHost.HostName).Nodup →
      runSelectors mgmtCfg b (specs.map SelSpec.toSelector) a t = (Except.ok m, t') →
      (m.Hosts.map baremetalHost.HostName).Nodup := by
  intro specs
  induction specs with
  | nil =>
    intro a m t t' hnd hand h
    have hfst := congrArg Prod.fst h
    simp [runSelectors] at hfst
    subst hfst
    exact hand
  | cons s rest ih =>
    intro a m t t' hnd hand h
    cases hf : SelSpec.toSelector s a mgmtCfg b t with
    | mk r1 t1 =>
      cases r1 with
      | error e =>
        simp only [List.map_cons, runSelectors, hf] at h
        exact absurd (congrArg Prod.fst h) (by simp)
      | ok m1 =>
        simp only [List.map_cons, runSelectors, hf] at h
        obtain ⟨hs, hrec, hshape⟩ := toSelector_ok_hostsShape hf
        have hm1 : (m1.Hosts.map baremetalHost.HostName).Nodup := by
          rw [hrec]
          apply reconcileHosts_nodup
          cases hshape with
          | inl heq => rw [heq]; exact hnd s (by simp)
          | inr hsing => obtain ⟨host, rfl⟩ := hsing; simp
        exact ih m1 m t1 t' (fun s2 hs2 => hnd s2 (by simp [hs2])) hm1 h

/-! Concrete documents, bundles and configurations used by the closed
counterexamples and witnesses. -/

/-- Example document "A" with label `x`. -/
def docA : Document :=
  { kind := "BareMetalHost", name := "A", labels := ["x"],
    bmcAddress := Except.ok "addr-a", bmcCredentials := Except.ok ("u", "p") }

/-- Example document "B" with label `x`. -/
def docB : Document :=
  { kind := "BareMetalHost", name := "B", labels := ["x"],
    bmcAddress := Except.ok "addr-b", bmcCredentials := Except.ok ("u", "p") }

/-- Second example document named "A" (duplicate name, distinct address). -/
def docA2 : Document :=
  { kind := "BareMetalHost", name := "A", labels := ["x"],
    bmcAddress := Except.ok "addr-a2", bmcCredentials := Except.ok ("u", "p") }

/-- Example document whose BMC-address resolution fails. -/
def docBad : Document :=
  { kind := "BareMetalHost", name := "C", labels := ["y"],
    bmcAddress := Except.error "no-address", bmcCredentials := Except.ok ("u", "p") }

/-- Example management configuration of the generic Redfish type. -/
def exMgmtCfg : ManagementConfiguration :=
  { type := "redfish", insecure := false, useProxy := false,
    systemActionRetries := 1, systemRebootDelay := 2 }

/-- Example management configuration of an unrecognized type. -/
def exMgmtCfgBad : ManagementConfiguration :=
  { type := "ipmi", insecure := false, useProxy := false,
    systemActionRetries := 1, systemRebootDelay := 2 }

/-- Bundle holding documents "A" and "B". -/
def exBundleAB : Bundle := { docs := [docA, docB] }

/-- Bundle holding two distinct documents both named "A". -/
def exBundleDup : Bundle := { docs := [docA, docA2] }

/-- Bundle holding only the document with failing address resolution. -/
def exBundleBad : Bundle := { docs := [docBad] }

/-- Configuration resolving to the Redfish management type over the A/B
bundle. -/
def exConfigAB : Config :=
  { managementConfig := Except.ok exMgmtCfg, phaseBundle := fun _ => Except.ok exBundleAB }

/-- Configuration with an unrecognized management type. -/
def exConfigBad : Config :=
  { managementConfig := Except.ok exMgmtCfgBad, phaseBundle := fun _ => Except.ok exBundleAB }

/-- Configuration over the duplicate-name bundle. -/
def exConfigDup : Config :=
  { managementConfig := Except.ok exMgmtCfg, phaseBundle := fun _ => Except.ok exBundleDup }

/-- Configuration over the failing-resolution bundle. -/
def exConfigBadDoc : Config :=
  { managementConfig := Except.ok exMgmtCfg, phaseBundle := fun _ => Except.ok exBundleBad }

/-! Claim C1. -/

/-- C1 counterexample: with the selector sequence ByName "A", ByName "B",
ByName "B" over documents A and B, every selector succeeds (no error is
returned), yet the final host-name set is {"B"} although the intersection of
the three independently-computed match sets is empty: "B" does not match
ByName "A".  The second reconciliation empties the host list, and
`reconcileHosts` treats the empty current list as "first selector", adopting
the third selector's hosts wholesale. -/
theorem C1_counterexample :
    ((NewManager exConfigAB "p"
        ([SelSpec.byName "A", SelSpec.byName "B", SelSpec.byName "B"].map
          SelSpec.toSelector) []).1.2 = none) ∧
    ((NewManager exConfigAB "p"
        ([SelSpec.byName "A", SelSpec.byName "B", SelSpec.byName "B"].map
          SelSpec.toSelector) []).1.1.map
        (fun m => m.Hosts.map baremetalHost.HostName) = some ["B"]) ∧
    SelSpec.byName "A" ∈ [SelSpec.byName "A", SelSpec.byName "B", SelSpec.byName "B"] ∧
    "B" ∉ (SelSpec.byName "A").matchNames exBundleAB := by
  refine ⟨rfl, rfl, by decide, by decide⟩

/-- C1 (amended): for a non-empty sequence of ByName/ByLabel selectors run
by NewManager against a fixed document set, if NewManager returns a manager
(so every selector succeeded) and every intermediate intersection of the
first j match sets (0 < j < n) is non-empty, then the final host-name set
equals the intersection of the n independently-computed match-name sets; for
n = 1 the proviso is vacuous and the set equals S1's match set exactly. -/
theorem C1_intersection {cfg : Config} {phase : String} {specs : List SelSpec}
    {mc : ManagementConfiguration} {b : Bundle} {m : Manager}
    {e : Option RemoteError} {tr : Trace}
    (hmc : cfg.managementConfig = Except.ok mc)
    (hb : cfg.phaseBundle phase = Except.ok b)
    (hne : specs ≠ [])
    (hmid : ∀ j, 0 < j → j < specs.length →
      ∃ y, ∀ s ∈ specs.take j, y ∈ s.matchNames b)
    (h : NewManager cfg phase (specs.map SelSpec.toSelector) [] = ((some m, e), tr)) :
    ∀ x, x ∈ m.Hosts.map baremetalHost.HostName ↔ ∀ s ∈ specs, x ∈ s.matchNames b := by
  obtain ⟨hv, hrun⟩ := NewManager_some_inv hmc hb h
  intro x
  cases specs with
  | nil => exact absurd rfl hne
  | cons s0 rest =>
    cases hf : SelSpec.toSelector s0 { Config := mc, Hosts := [] } mc b
        [Event.validateCall, Event.bundleLoadCall] with
    | mk r1 t1 =>
      cases r1 with
      | error e0 =>
        simp only [List.map_cons, runSelectors, hf] at hrun
        exact absurd (congrArg Prod.fst hrun) (by simp)
      | ok m1 =>
        simp only [List.map_cons, runSelectors, hf] at hrun
        obtain ⟨hs, hhs, hrec, hcfg, hmem⟩ := toSelector_ok_names hf
        have hrec' : m1.Hosts = hs := by
          rw [hrec]
          exact reconcileHosts_nil hs
        have hm1names : ∀ y, y ∈ m1.Hosts.map baremetalHost.HostName ↔
            y ∈ s0.matchNames b := by
          intro y
          rw [hrec']
          exact hmem y
        have hm1ne : m1.Hosts ≠ [] := by
          rw [hrec']
          exact hhs
        by_cases hrest : rest = []
        · subst hrest
          have hfst := congrArg Prod.fst hrun
          simp [runSelectors] at hfst
          subst hfst
          rw [List.forall_mem_singleton]
          exact hm1names x
        · have hmid' : ∀ j, 0 < j → j < rest.length →
              ∃ z, z ∈ m1.Hosts.map baremetalHost.HostName ∧
                ∀ s' ∈ rest.take j, z ∈ s'.matchNames b := by
            intro j hj hjlen
            obtain ⟨y, hy⟩ := hmid (j + 1) (by omega) (by simp; omega)
            rw [List.take_succ_cons] at hy
            have hy0 : y ∈ s0.matchNames b := hy s0 (List.mem_cons_self s0 _)
            exact ⟨y, (hm1names y).mpr hy0,
              fun s' hs' => hy s' (List.mem_cons_of_mem s0 hs')⟩
          rw [runSelectors_inter rest m1 m t1 tr hm1ne hmid' hrun x,
            hm1names x, List.forall_mem_cons]

/-- Witness for the amended C1 at the specification's own scenario:
ByLabel "x" (matching A and B) followed by ByName "B" yields exactly the
intersection, so "B" is in the final host-name set. -/
theorem C1_intersection_witness :
    "B" ∈ ((NewManager exConfigAB "p"
        ([SelSpec.byLabel "x", SelSpec.byName "B"].map SelSpec.toSelector) []).1.1.getD
          { Config := exMgmtCfg, Hosts := [] }).Hosts.map baremetalHost.HostName ↔
      ∀ s ∈ [SelSpec.byLabel "x", SelSpec.byName "B"], "B" ∈ s.matchNames exBundleAB := by
  refine @C1_intersection exConfigAB "p" [SelSpec.byLabel "x", SelSpec.byName "B"]
    exMgmtCfg exBundleAB _ _ _ rfl rfl (by decide) ?_ rfl "B"
  intro j hj hjlen
  have hj1 : j = 1 := by simp at hjlen; omega
  subst hj1
  exact ⟨"B", by decide⟩

/-! Claim C2. -/

/-- C2: for a resolvable ManagementConfiguration whose type is neither the
redfish nor the redfish-dell client type, NewManager fails with the
"unknown management type" error, and the trace of the run contains no
selection side effect: no document selection, no BMC-address or credential
resolution, and no client construction happen before (or after) that
failure.  This holds for every selector list, in particular for selector
lists matching at least one document. -/
theorem C2_unknown_type {cfg : Config} {phase : String} {sels : List HostSelector}
    {mc : ManagementConfiguration}
    (hmc : cfg.managementConfig = Except.ok mc)
    (hty1 : mc.type ≠ redfish.ClientType) (hty2 : mc.type ≠ redfishdell.ClientType) :
    (NewManager cfg phase sels []).1 =
        (none, some (RemoteError.unknownManagementType mc.type)) ∧
      ∀ ev ∈ (NewManager cfg phase sels []).2, ev.isSelectionEffect = false := by
  have hv : mc.Validate = Except.error (RemoteError.unknownManagementType mc.type) := by
    simp [ManagementConfiguration.Validate, hty1, hty2]
  constructor
  · simp [NewManager, hmc, hv]
  · simp [NewManager, hmc, hv, Event.isSelectionEffect]

/-- Witness for C2: the unrecognized type "ipmi" with a selector that does
match a document. -/
theorem C2_unknown_type_witness :
    (NewManager exConfigBad "p" [SelSpec.toSelector (SelSpec.byName "A")] []).1 =
        (none, some (RemoteError.unknownManagementType exMgmtCfgBad.type)) ∧
      ∀ ev ∈ (NewManager exConfigBad "p" [SelSpec.toSelector (SelSpec.byName "A")] []).2,
        ev.isSelectionEffect = false :=
  C2_unknown_type rfl (by decide) (by decide)

/-! Claim C3. -/

/-- C3 counterexample: a single ByLabel selector over a bundle holding two
distinct documents both named "A" succeeds and yields a manager whose host
list has two entries with the same HostName — reconciliation does not
deduplicate by host name. -/
theorem C3_counterexample :
    ((NewManager exConfigDup "p" [SelSpec.toSelector (SelSpec.byLabel "x")] []).1.2
        = none) ∧
    ((NewManager exConfigDup "p" [SelSpec.toSelector (SelSpec.byLabel "x")] []).1.1.map
        (fun m => m.Hosts.map baremetalHost.HostName) = some ["A", "A"]) ∧
    ¬ (["A", "A"] : List String).Nodup :=
  ⟨rfl, rfl, by decide⟩

/-- C3 (amended): a successful NewManager run yields a manager whose host
names are pairwise distinct provided every selector's independently-computed
match-name list is itself duplicate-free; the uniqueness comes from the
per-document construction and reconciliation's filtering, which preserve —
but do not create — distinctness. -/
theorem C3_nodup {cfg : Config} {phase : String} {specs : List SelSpec}
    {mc : ManagementConfiguration} {b : Bundle} {m : Manager}
    {e : Option RemoteError} {tr : Trace}
    (hmc : cfg.managementConfig = Except.ok mc)
    (hb : cfg.phaseBundle phase = Except.ok b)
    (hnd : ∀ s ∈ specs, (SelSpec.matchNames s b).Nodup)
    (h : NewManager cfg phase (specs.map SelSpec.toSelector) [] = ((some m, e), tr)) :
    (m.Hosts.map baremetalHost.HostName).Nodup := by
  obtain ⟨hv, hrun⟩ := NewManager_some_inv hmc hb h
  exact runSelectors_specs_nodup specs _ m _ _ hnd (by simp) hrun

/-- Witness for the amended C3: ByLabel "x" over documents A and B (distinct
names) yields a duplicate-free host-name list. -/
theorem C3_nodup_witness :
    (((NewManager exConfigAB "p" ([SelSpec.byLabel "x"].map SelSpec.toSelector) []).1.1.getD
        { Config := exMgmtCfg, Hosts := [] }).Hosts.map baremetalHost.HostName).Nodup :=
  @C3_nodup exConfigAB "p" [SelSpec.byLabel "x"] exMgmtCfg exBundleAB _ _ _
    rfl rfl (by decide) rfl

/-! Claim C4. -/

/-- C4: when configuration resolution, validation, bundle loading and every
selector succeed but the reconciled host list is empty, NewManager returns
the explicit "no hosts found" error, which is distinct from every
"document not found" selection error; the embedding is a total function, so
no panic is possible. -/
theorem C4_noHosts {cfg : Config} {phase : String} {sels : List HostSelector}
    {mc : ManagementConfiguration} {b : Bundle} {m : Manager} {t3 : Trace}
    (hmc : cfg.managementConfig = Except.ok mc)
    (hv : mc.Validate = Except.ok ())
    (hb : cfg.phaseBundle phase = Except.ok b)
    (hrun : runSelectors mc b sels { Config := mc, Hosts := [] }
      [Event.validateCall, Event.bundleLoadCall] = (Except.ok m, t3))
    (hempty : m.Hosts = []) :
    NewManager cfg phase sels [] = ((some m, some RemoteError.noHostsFound), t3) ∧
      ∀ s, RemoteError.noHostsFound ≠ RemoteError.docNotFound s := by
  refine ⟨?_, fun s => by simp⟩
  simp only [NewManager, hmc, hv, hb, List.nil_append, List.singleton_append]
  rw [show (Event.validateCall :: [Event.bundleLoadCall] : Trace)
      = [Event.validateCall, Event.bundleLoadCall] from rfl, hrun]
  simp [hempty]

/-- Trace of the selector loop running ByName "A" then ByName "B" over the
A/B bundle (used by concrete witnesses). -/
def exTraceAB2 : Trace :=
  (runSelectors exMgmtCfg exBundleAB
    ([SelSpec.byName "A", SelSpec.byName "B"].map SelSpec.toSelector)
    { Config := exMgmtCfg, Hosts := [] }
    [Event.validateCall, Event.bundleLoadCall]).2

/-- Witness for C4: ByName "A" then ByName "B" both succeed, their
intersection is empty, and NewManager reports `noHostsFound` while still
returning the (empty) manager. -/
theorem C4_noHosts_witness :
    NewManager exConfigAB "q"
        ([SelSpec.byName "A", SelSpec.byName "B"].map SelSpec.toSelector) []
        = ((some { Config := exMgmtCfg, Hosts := [] },
            some RemoteError.noHostsFound), exTraceAB2) ∧
      ∀ s, RemoteError.noHostsFound ≠ RemoteError.docNotFound s :=
  C4_noHosts rfl rfl rfl rfl rfl

/-! Claim C9. -/

/-- C9: over selectors built from ByName/ByLabel, when NewManager fails with
`noHostsFound` it returns the manager alongside the error — with the
validated configuration snapshot and an empty host list — whereas every
other failure returns no manager. -/
theorem C9_noHosts_manager {cfg : Config} {phase : String} {specs : List SelSpec}
    {res : Option Manager × Option RemoteError} {tr : Trace}
    (h : NewManager cfg phase (specs.map SelSpec.toSelector) [] = (res, tr)) :
    (res.2 = some RemoteError.noHostsFound →
      ∃ m mc, res.1 = some m ∧ m.Hosts = [] ∧ cfg.managementConfig = Except.ok mc ∧
        m.Config = mc ∧ mc.Validate = Except.ok ()) ∧
    (∀ e, res.2 = some e → e ≠ RemoteError.noHostsFound → res.1 = none) := by
  cases hmc : cfg.managementConfig with
  | error msg =>
    simp only [NewManager, hmc] at h
    have hres := congrArg Prod.fst h
    simp only [] at hres
    rw [← hres]
    exact ⟨by simp, by simp⟩
  | ok mc =>
    by_cases hty : mc.type = redfish.ClientType ∨ mc.type = redfishdell.ClientType
    · have hv : mc.Validate = Except.ok () := by
        simp [ManagementConfiguration.Validate, hty]
      cases hb : cfg.phaseBundle phase with
      | error msg =>
        simp only [NewManager, hmc, hv, hb] at h
        have hres := congrArg Prod.fst h
        simp only [] at hres
        rw [← hres]
        exact ⟨by simp, by simp⟩
      | ok b =>
        simp only [NewManager, hmc, hv, hb, List.nil_append, List.singleton_append] at h
        rw [show (Event.validateCall :: [Event.bundleLoadCall] : Trace)
            = [Event.validateCall, Event.bundleLoadCall] from rfl] at h
        cases hr : runSelectors mc b (specs.map SelSpec.toSelector)
            { Config := mc, Hosts := [] }
            [Event.validateCall, Event.bundleLoadCall] with
        | mk r1 t3 =>
          cases r1 with
          | error e1 =>
            simp only [hr] at h
            have hres := congrArg Prod.fst h
            simp only [] at hres
            rw [← hres]
            have hne := runSelectors_specs_error_ne specs _ _ _ _ hr
            exact ⟨by simp [hne], by simp⟩
          | ok m1 =>
            simp only [hr] at h
            by_cases hlen : m1.Hosts.length = 0
            · rw [if_pos hlen] at h
              have hres := congrArg Prod.fst h
              simp only [] at hres
              rw [← hres]
              refine ⟨fun _ => ⟨m1, mc, rfl, ?_, rfl, ?_, hv⟩, by simp⟩
              · exact List.length_eq_zero.mp hlen
              · have := runSelectors_specs_config specs _ _ _ _ hr
                simpa using this
            · rw [if_neg hlen] at h
              have hres := congrArg Prod.fst h
              simp only [] at hres
              rw [← hres]
              exact ⟨by simp, by simp⟩
    · have hv : mc.Validate =
          Except.error (RemoteError.unknownManagementType mc.type) := by
        simp [ManagementConfiguration.Validate, hty]
      simp only [NewManager, hmc, hv] at h
      have hres := congrArg Prod.fst h
      simp only [] at hres
      rw [← hres]
      exact ⟨by simp, by simp⟩

/-- Witness for C9: the concrete `noHostsFound` run returns the manager with
the validated configuration and empty hosts. -/
theorem C9_noHosts_manager_witness :
    ∃ m mc, ((some { Config := exMgmtCfg, Hosts := ([] : List baremetalHost) },
          some RemoteError.noHostsFound) :
            Option Manager × Option RemoteError).1 = some m ∧ m.Hosts = [] ∧
      exConfigAB.managementConfig = Except.ok mc ∧ m.Config = mc ∧
      mc.Validate = Except.ok () :=
  (@C9_noHosts_manager exConfigAB "r" [SelSpec.byName "A", SelSpec.byName "B"]
    (some { Config := exMgmtCfg, Hosts := [] }, some RemoteError.noHostsFound)
    exTraceAB2 rfl).1 rfl

/-! Claim C5. -/

/-- C5: ByName(name) against zero documents matching kind BareMetalHost and
that name fails with the "document not found" error; against exactly one
matching document (resolvable, under a recognized management type) it
succeeds and contributes exactly one host whose HostName equals that
document's name. -/
theorem C5_byName (name : String) (a : Manager) (mgmtCfg : ManagementConfiguration)
    (b : Bundle) (t : Trace) :
    (b.docs.filter (fun d => docMatches
        { kind := BareMetalHostKind, name := some name, label := none } d) = [] →
      (ByName name a mgmtCfg b t).1 = Except.error (RemoteError.docNotFound
        { kind := BareMetalHostKind, name := some name, label := none })) ∧
    (∀ d, b.docs.filter (fun d => docMatches
        { kind := BareMetalHostKind, name := some name, label := none } d) = [d] →
      (mgmtCfg.type = redfish.ClientType ∨ mgmtCfg.type = redfishdell.ClientType) →
      (∃ addr, d.bmcAddress = Except.ok addr) →
      (∃ cred, d.bmcCredentials = Except.ok cred) →
      ∃ host t2, ByName name a mgmtCfg b t =
          (Except.ok { a with Hosts := reconcileHosts a.Hosts [host] }, t2) ∧
        host.HostName = d.name) := by
  constructor
  · intro hf
    rw [ByName_not_found a mgmtCfg t hf]
  · intro d hf hty ha hc
    obtain ⟨host, t2, hnb⟩ :=
      @newBaremetalHost_ok_of mgmtCfg d b
        (t ++ [Event.docSelectCall
          { kind := BareMetalHostKind, name := some name, label := none }]) hty ha hc
    refine ⟨host, t2, ?_, newBaremetalHost_ok_name hnb⟩
    rw [ByName_found a mgmtCfg t hf]
    simp only [hnb]

/-- Witness for C5: ByName "Z" finds no document and fails with
"document not found"; ByName "A" finds exactly document A and contributes
one host named "A". -/
theorem C5_byName_witness :
    ((ByName "Z" { Config := exMgmtCfg, Hosts := [] } exMgmtCfg exBundleAB []).1 =
        Except.error (RemoteError.docNotFound
          { kind := BareMetalHostKind, name := some "Z", label := none })) ∧
    (∃ host t2, ByName "A" { Config := exMgmtCfg, Hosts := [] } exMgmtCfg exBundleAB [] =
        (Except.ok { Config := exMgmtCfg, Hosts := reconcileHosts [] [host] }, t2) ∧
      host.HostName = docA.name) :=
  ⟨(C5_byName "Z" { Config := exMgmtCfg, Hosts := [] } exMgmtCfg exBundleAB []).1 rfl,
   (C5_byName "A" { Config := exMgmtCfg, Hosts := [] } exMgmtCfg exBundleAB []).2 docA
     rfl (Or.inl rfl) ⟨"addr-a", rfl⟩ ⟨("u", "p"), rfl⟩⟩

/-! Claim C6. -/

/-- C6: ByLabel(label) against k > 0 documents matching kind BareMetalHost
and that label (all resolvable, under a recognized management type) succeeds
and contributes exactly k hosts, each named after its source document in
order; against zero matching documents it fails with the "document not
found" error. -/
theorem C6_byLabel (label : String) (a : Manager) (mgmtCfg : ManagementConfiguration)
    (b : Bundle) (t : Trace) :
    (b.docs.filter (fun d => docMatches
        { kind := BareMetalHostKind, name := none, label := some label } d) = [] →
      (ByLabel label a mgmtCfg b t).1 = Except.error (RemoteError.docNotFound
        { kind := BareMetalHostKind, name := none, label := some label })) ∧
    (∀ docs, b.docs.filter (fun d => docMatches
        { kind := BareMetalHostKind, name := none, label := some label } d) = docs →
      docs ≠ [] →
      (mgmtCfg.type = redfish.ClientType ∨ mgmtCfg.type = redfishdell.ClientType) →
      (∀ d ∈ docs, (∃ addr, d.bmcAddress = Except.ok addr) ∧
        ∃ cred, d.bmcCredentials = Except.ok cred) →
      ∃ hs t2, ByLabel label a mgmtCfg b t =
          (Except.ok { a with Hosts := reconcileHosts a.Hosts hs }, t2) ∧
        hs.map baremetalHost.HostName = docs.map Document.name ∧
        hs.length = docs.length) := by
  constructor
  · intro hf
    rw [ByLabel_not_found a mgmtCfg t hf]
  · intro docs hf hne hty hres
    obtain ⟨hs, t2, hbh⟩ :=
      @buildHosts_ok_of mgmtCfg b hty docs hres
        (t ++ [Event.docSelectCall
          { kind := BareMetalHostKind, name := none, label := some label }])
    have hnames := buildHosts_ok_names hbh
    refine ⟨hs, t2, ?_, hnames, ?_⟩
    · rw [ByLabel_found a mgmtCfg t hf hne]
      simp only [hbh]
    · have := congrArg List.length hnames
      simpa using this

/-- Witness for C6: ByLabel "z" matches nothing and fails; ByLabel "x"
matches the two documents A and B and contributes two hosts named "A" and
"B". -/
theorem C6_byLabel_witness :
    ((ByLabel "z" { Config := exMgmtCfg, Hosts := [] } exMgmtCfg exBundleAB []).1 =
        Except.error (RemoteError.docNotFound
          { kind := BareMetalHostKind, name := none, label := some "z" })) ∧
    (∃ hs t2, ByLabel "x" { Config := exMgmtCfg, Hosts := [] } exMgmtCfg exBundleAB [] =
        (Except.ok { Config := exMgmtCfg, Hosts := reconcileHosts [] hs }, t2) ∧
      hs.map baremetalHost.HostName = [docA, docB].map Document.name ∧
      hs.length = ([docA, docB] : List Document).length) :=
  ⟨(C6_byLabel "z" { Config := exMgmtCfg, Hosts := [] } exMgmtCfg exBundleAB []).1 rfl,
   (C6_byLabel "x" { Config := exMgmtCfg, Hosts := [] } exMgmtCfg exBundleAB []).2
     [docA, docB] rfl (by simp)
     (Or.inl rfl)
     (by
       intro d hd
       simp only [List.mem_cons, List.not_mem_nil, or_false] at hd
       cases hd with
       | inl h1 => subst h1; exact ⟨⟨"addr-a", rfl⟩, ("u", "p"), rfl⟩
       | inr h1 => subst h1; exact ⟨⟨"addr-b", rfl⟩, ("u", "p"), rfl⟩)⟩

/-- On the full success prefix, the NewManager trace is the selector loop's
trace. -/
lemma NewManager_trace_eq {cfg : Config} {phase : String} {sels : List HostSelector}
    {mc : ManagementConfiguration} {b : Bundle}
    (hmc : cfg.managementConfig = Except.ok mc)
    (hv : mc.Validate = Except.ok ())
    (hb : cfg.phaseBundle phase = Except.ok b) :
    (NewManager cfg phase sels []).2 =
      (runSelectors mc b sels { Config := mc, Hosts := [] }
        [Event.validateCall, Event.bundleLoadCall]).2 := by
  simp only [NewManager, hmc, hv, hb, List.nil_append, List.singleton_append]
  rw [show (Event.validateCall :: [Event.bundleLoadCall] : Trace)
      = [Event.validateCall, Event.bundleLoadCall] from rfl]
  cases hr : runSelectors mc b sels { Config := mc, Hosts := [] }
      [Event.validateCall, Event.bundleLoadCall] with
  | mk r1 t3 =>
    cases r1 with
    | error e => simp
    | ok m1 => by_cases hlen : m1.Hosts.length = 0 <;> simp [hlen]

/-! Claim C7. -/

/-- C7: whenever the ManagementConfiguration resolves, NewManager validates
it exactly once and before the bundle is loaded and before any selector
runs — the validation call is the first event of the trace and occurs
nowhere else; and if validation fails, NewManager returns that error with
the validation call as the only event, so no bundle loading and no selection
step is ever reached. -/
theorem C7_validation_first {cfg : Config} {phase : String} {specs : List SelSpec}
    {mc : ManagementConfiguration}
    (hmc : cfg.managementConfig = Except.ok mc) :
    (∃ rest, (NewManager cfg phase (specs.map SelSpec.toSelector) []).2
        = Event.validateCall :: rest ∧ Event.validateCall ∉ rest) ∧
    (∀ e, mc.Validate = Except.error e →
      NewManager cfg phase (specs.map SelSpec.toSelector) []
        = ((none, some e), [Event.validateCall])) := by
  constructor
  · cases hv : mc.Validate with
    | error e =>
      refine ⟨[], ?_, by simp⟩
      simp [NewManager, hmc, hv]
    | ok u =>
      cases u
      cases hb : cfg.phaseBundle phase with
      | error msg =>
        refine ⟨[Event.bundleLoadCall], ?_, by simp⟩
        simp [NewManager, hmc, hv, hb]
      | ok b =>
        rw [NewManager_trace_eq hmc hv hb]
        exact runSelectors_validateOnce specs _ _ ⟨[Event.bundleLoadCall], rfl, by simp⟩
  · intro e hv
    simp [NewManager, hmc, hv]

/-- Witness for C7: a concrete run whose trace starts with the single
validation call, together with the vacuous failure clause of the valid
configuration. -/
theorem C7_validation_first_witness :
    (∃ rest, (NewManager exConfigAB "p" ([SelSpec.byName "A"].map SelSpec.toSelector) []).2
        = Event.validateCall :: rest ∧ Event.validateCall ∉ rest) ∧
    (∀ e, exMgmtCfg.Validate = Except.error e →
      NewManager exConfigAB "p" ([SelSpec.byName "A"].map SelSpec.toSelector) []
        = ((none, some e), [Event.validateCall])) :=
  C7_validation_first rfl

/-! Claim C8. -/

/-- C8: if, during a selector's invocation inside NewManager, BMC-address or
credential resolution fails for one of the matched documents (all documents
processed before it resolving), the selector itself returns that resolution
error — contributing no updated manager, so the host list the Manager held
before the selector ran is left behind — and NewManager aborts, returning
that error with no manager. -/
theorem C8_resolution_failure {cfg : Config} {phase : String} {specs1 : List SelSpec}
    {s : SelSpec} {sels2 : List HostSelector} {mc : ManagementConfiguration} {b : Bundle}
    {a : Manager} {tmid : Trace} {ds1 : List Document} {d : Document}
    {ds2 : List Document} {msg : String} {e : RemoteError}
    (hmc : cfg.managementConfig = Except.ok mc)
    (hv : mc.Validate = Except.ok ())
    (hb : cfg.phaseBundle phase = Except.ok b)
    (hrun1 : runSelectors mc b (specs1.map SelSpec.toSelector)
      { Config := mc, Hosts := [] }
      [Event.validateCall, Event.bundleLoadCall] = (Except.ok a, tmid))
    (hproc : s.processedDocs b = ds1 ++ d :: ds2)
    (hty : mc.type = redfish.ClientType ∨ mc.type = redfishdell.ClientType)
    (hok1 : ∀ d' ∈ ds1, (∃ addr, d'.bmcAddress = Except.ok addr) ∧
      ∃ cred, d'.bmcCredentials = Except.ok cred)
    (hfail : (d.bmcAddress = Except.error msg ∧ e = RemoteError.addressError msg) ∨
      ((∃ addr, d.bmcAddress = Except.ok addr) ∧ d.bmcCredentials = Except.error msg ∧
        e = RemoteError.credentialsError msg)) :
    ∃ tend, SelSpec.toSelector s a mc b tmid = (Except.error e, tend) ∧
      NewManager cfg phase
          (specs1.map SelSpec.toSelector ++ SelSpec.toSelector s :: sels2) []
        = ((none, some e), tend) := by
  have hd : ∀ t, ∃ t', newBaremetalHost mc d b t = (Except.error e, t') := by
    intro t
    cases hfail with
    | inl hf =>
      exact ⟨_, hf.2 ▸ newBaremetalHost_addr_err t hf.1⟩
    | inr hf =>
      obtain ⟨⟨addr, ha⟩, hc, he⟩ := hf
      exact ⟨_, he ▸ newBaremetalHost_cred_err t ha hc⟩
  have hsel : ∃ tend, SelSpec.toSelector s a mc b tmid = (Except.error e, tend) := by
    cases s with
    | byName n =>
      simp only [SelSpec.processedDocs, SelSpec.selector] at hproc
      cases hfil : b.docs.filter
          (fun d => docMatches { kind := BareMetalHostKind, name := some n, label := none } d) with
      | nil => rw [hfil] at hproc; simp at hproc
      | cons d0 rest =>
        rw [hfil] at hproc
        simp only [List.take_succ_cons, List.take_zero] at hproc
        have hd0 : d0 = d ∧ ds1 = [] := by
          cases ds1 with
          | nil => simp at hproc; exact ⟨hproc.1, rfl⟩
          | cons x xs => simp at hproc
        obtain ⟨t', ht'⟩ := hd
          (tmid ++ [Event.docSelectCall
            { kind := BareMetalHostKind, name := some n, label := none }])
        refine ⟨t', ?_⟩
        simp only [SelSpec.toSelector]
        rw [ByName_found a mc tmid hfil, hd0.1, ht']
    | byLabel l =>
      simp only [SelSpec.processedDocs, SelSpec.selector] at hproc
      obtain ⟨t', ht'⟩ := @buildHosts_firstFail mc b hty d ds2 e hd ds1 hok1
        (tmid ++ [Event.docSelectCall
          { kind := BareMetalHostKind, name := none, label := some l }])
      refine ⟨t', ?_⟩
      simp only [SelSpec.toSelector]
      rw [ByLabel_found a mc tmid hproc (by simp), ht']
  obtain ⟨tend, hsel'⟩ := hsel
  refine ⟨tend, hsel', ?_⟩
  simp only [NewManager, hmc, hv, hb, List.nil_append, List.singleton_append]
  rw [show (Event.validateCall :: [Event.bundleLoadCall] : Trace)
      = [Event.validateCall, Event.bundleLoadCall] from rfl]
  rw [runSelectors_append mc b (specs1.map SelSpec.toSelector)
    (SelSpec.toSelector s :: sels2) { Config := mc, Hosts := [] }
    [Event.validateCall, Event.bundleLoadCall]]
  simp only [hrun1, runSelectors, hsel']

/-- Witness for C8: the single ByLabel "y" selector matches only the
document whose address resolution fails, so the selector and NewManager
fail with that address error. -/
theorem C8_resolution_failure_witness :
    ∃ tend, SelSpec.toSelector (SelSpec.byLabel "y") { Config := exMgmtCfg, Hosts := [] }
        exMgmtCfg exBundleBad [Event.validateCall, Event.bundleLoadCall]
        = (Except.error (RemoteError.addressError "no-address"), tend) ∧
      NewManager exConfigBadDoc "p"
          (([] : List SelSpec).map SelSpec.toSelector ++
            SelSpec.toSelector (SelSpec.byLabel "y") :: ([] : List HostSelector)) []
        = ((none, some (RemoteError.addressError "no-address")), tend) :=
  @C8_resolution_failure exConfigBadDoc "p" [] (SelSpec.byLabel "y") [] exMgmtCfg
    exBundleBad { Config := exMgmtCfg, Hosts := [] }
    [Event.validateCall, Event.bundleLoadCall] [] docBad [] "no-address"
    (RemoteError.addressError "no-address")
    rfl rfl rfl rfl rfl (Or.inl rfl) (by simp) (Or.inl ⟨rfl, rfl⟩)

/-! Claim C10. -/

/-- C10: reconciling a non-empty existing host list with a newer selector's
host list keeps exactly the newer selector's host values — in the newer
list's order (a sublist of it) — namely those whose host name already occurs
in the existing list; the existing list's instances are discarded. -/
theorem C10_reconcile (existingHosts newHosts : List baremetalHost)
    (hne : existingHosts ≠ []) :
    (reconcileHosts existingHosts newHosts).Sublist newHosts ∧
    ∀ h, h ∈ reconcileHosts existingHosts newHosts ↔
      (h ∈ newHosts ∧ ∃ h2 ∈ existingHosts, h2.HostName = h.HostName) := by
  rw [reconcileHosts_ne_nil hne]
  constructor
  · exact List.filter_sublist newHosts
  · intro h
    rw [List.mem_filter]
    constructor
    · rintro ⟨hh, hcont⟩
      have hmem : h.HostName ∈ existingHosts.map (fun h => h.HostName) := by
        simpa using hcont
      simp only [List.mem_map] at hmem
      obtain ⟨h2, hh2, hn⟩ := hmem
      exact ⟨hh, h2, hh2, hn⟩
    · rintro ⟨hh, h2, hh2, hn⟩
      refine ⟨hh, ?_⟩
      have hmem : h.HostName ∈ existingHosts.map (fun h => h.HostName) :=
        List.mem_map.mpr ⟨h2, hh2, hn⟩
      simpa using hmem

/-- Host named "A" reachable at address 1 (existing-list instance). -/
def exHostA1 : baremetalHost :=
  { client := { address := "addr-1", insecure := false, useProxy := false,
                username := "u", password := "p", systemActionRetries := 1,
                systemRebootDelay := 2, dell := false },
    context := (), BMCAddress := "addr-1", HostName := "A",
    username := "u", password := "p" }

/-- Host named "A" reachable at address 2 (newer-list instance). -/
def exHostA2 : baremetalHost :=
  { client := { address := "addr-2", insecure := false, useProxy := false,
                username := "u", password := "p", systemActionRetries := 1,
                systemRebootDelay := 2, dell := false },
    context := (), BMCAddress := "addr-2", HostName := "A",
    username := "u", password := "p" }

/-- Witness for C10: with an existing instance and a newer instance of host
"A" at different addresses, the reconciled list is a sublist of the newer
list and contains the newer instance. -/
theorem C10_reconcile_witness :
    (reconcileHosts [exHostA1] [exHostA2]).Sublist [exHostA2] ∧
      (exHostA2 ∈ reconcileHosts [exHostA1] [exHostA2] ↔
        (exHostA2 ∈ [exHostA2] ∧ ∃ h2 ∈ [exHostA1], h2.HostName = exHostA2.HostName)) :=
  ⟨(C10_reconcile [exHostA1] [exHostA2] (by simp)).1,
   (C10_reconcile [exHostA1] [exHostA2] (by simp)).2 exHostA2⟩

end Airship
